import Mathlib

/-!
Verification of the SPC-analysis core of the DCO analysis system
(`src/app.py`).

The batch pipeline (`analyze_batch_data`) and the activity pipeline
(`analyze_activity_data`) are embedded shallowly: pandas DataFrame rows
become lists of typed records, nullable cells become `Option` values,
float arithmetic becomes exact rational arithmetic, and a failure of the
statistics stage (numpy reductions such as `np.percentile`, `np.min`,
`np.max` raise on an empty array) becomes an `Except` error value.

Modelling notes, applied throughout:
* `pd.DataFrame.sort_values` sorts through `numpy.argsort` with the
  default `kind='quicksort'` (introsort), which is not stable in
  general; pandas (`pandas.core.sorting.nargsort`) implements
  `ascending=False` by computing the ascending permutation and
  reversing it.  An executable embedding must fix one concrete
  comparison sort, and an insertion sort (reversed for the descending
  direction) is used below.  Because the program's ordering of equal
  keys is implementation-defined, every *general* theorem stated about
  a sorted result asserts only properties that hold for any comparison
  sort of the same key — lengths, permutation, ordering of the keys,
  and which key multiset is selected — never a relative order among
  equal keys.  The one concrete tie-order trace that is proved (a
  two-row counterexample) uses an array size at which numpy's
  quicksort is literally an insertion sort, where the embedding and
  the program agree step for step.
* `round(x, 2)` display rounding of values stored in anomaly records,
  and the 2-decimal rounding of the seconds→minutes conversion, are not
  modelled (exact rationals are kept); no verified property depends on
  those digits.
* `np.std(data, ddof=1)` and `np.std(data, ddof=0)` are square roots of
  the rational variances; the developments below carry the variances and
  treat a standard deviation as any nonnegative `s` with
  `s * s = variance`.
-/

namespace DCO

/-! ### Generic list machinery -/

/-- Stable insertion into an ascending-sorted list: `x` is placed in front of
the first element whose key is not strictly smaller, so elements with equal
keys keep their relative order. -/
def sinsertAsc {α β : Type} [LinearOrder β] (key : α → β) (x : α) : List α → List α
  | [] => [x]
  | y :: ys => if key y < key x then y :: sinsertAsc key x ys else x :: y :: ys

/-- Insertion sort, ascending by `key`: the concrete comparison sort standing
in for the `numpy.argsort` under `DataFrame.sort_values(..., ascending=True)`
(see the modelling note on sort kinds at the top of this file). -/
def sortAscBy {α β : Type} [LinearOrder β] (key : α → β) : List α → List α
  | [] => []
  | x :: xs => sinsertAsc key x (sortAscBy key xs)

/-- `drop_duplicates(subset=key, keep='first')`: keep a row iff no earlier row
has the same key.  `seen` is the set of keys already encountered. -/
def dedupFirstAux {α β : Type} [DecidableEq β] (key : α → β) (seen : List β) :
    List α → List α
  | [] => []
  | x :: xs =>
    if key x ∈ seen then dedupFirstAux key seen xs
    else x :: dedupFirstAux key (key x :: seen) xs

/-- `drop_duplicates(subset=key, keep='first')` on a whole list. -/
def dedupFirst {α β : Type} [DecidableEq β] (key : α → β) (l : List α) : List α :=
  dedupFirstAux key [] l

/-- All indices covered by runs of length `n` beginning at the given start
offsets, before deduplication.  Embeds the `for j in range(i, i+n):
anomalies.append(j)` accumulation of the rule helpers in `analyze_batch_data`. -/
def runEntries (starts : List ℕ) (n : ℕ) : List ℕ :=
  starts.foldr (fun i acc => ((List.range n).map (fun j => i + j)) ++ acc) []

/-- `list(set(anomalies))` over the accumulated run indices: every covered
index exactly once. -/
def runUnion (starts : List ℕ) (n : ℕ) : List ℕ :=
  (runEntries starts n).dedup

/-! ### Data model -/

/-- One row of the batch dataset (`DCO-batch data.xlsx`).  Columns used by
`analyze_batch_data`: `Process Order ID`, `End date/time`, `Type`, `Location`,
`Time Elapsed (seconds)`, `Planned Duration (seconds)`.  Nullable cells are
`Option`; `End date/time` is a timestamp (`pd.to_datetime`), kept as `ℤ`. -/
structure BatchRow where
  processOrderId : Option String
  endTime : Option ℤ
  type : String
  location : String
  timeElapsed : Option ℚ
  plannedDuration : Option ℚ
deriving DecidableEq

/-- One row of the activity dataset (`DCO-activity data.xlsx`), with the
columns `analyze_activity_data` reads. -/
structure ActivityRow where
  area : String
  changeoverType : String
  actualDuration : Option ℚ
  phaseName : String
  taskDescription : String
  operatorName : String
  poNumber : String
deriving DecidableEq

/-- One point of the analysis window as consumed by the anomaly rules:
the actual value and target value in minutes plus the attribution columns
read from `df_sorted.iloc[i]`. -/
structure SPCPoint where
  value : ℚ
  target : ℚ
  location : String
  processId : String
  endTime : ℤ
deriving DecidableEq

instance : Inhabited SPCPoint := ⟨⟨0, 0, "", "", 0⟩⟩

/-- One anomaly record as appended to `anomaly_records`.  Field names map the
source's record keys: `seq` = 序号 (1-based point index), `location` = 产线,
`processId` = 批次号, `time` = 时间, `actual` = 实际值, `target` = 目标值,
`deviation` = 偏差, `rule` = 异常规则 (the rule number 1–4 of the label). -/
structure AnomalyRecord where
  seq : ℕ
  location : String
  processId : String
  time : ℤ
  actual : ℚ
  target : ℚ
  deviation : ℚ
  rule : ℕ
deriving DecidableEq

/-- Errors the pipeline can signal: the hard stop when no usable duration
column exists, and the failure of the statistics stage on an empty window. -/
inductive AnalysisError where
  | missingColumn
  | insufficientData
deriving DecidableEq

/-! ### DataCleaner (`analyze_batch_data`, cleaning steps 1–6) -/

/-- The fixed allow-list of step 5 (`allowed_locations` in the source). -/
def allowed_locations : List String :=
  ["CP Line 9", "CP Line 10", "CP Line 11", "CP Line 12", "CP Line 05", "CP Line 08"]

/-- Cleaning steps 1–6 of `analyze_batch_data`, in source order:
1. drop rows with null `Process Order ID`; 2. drop duplicate
`Process Order ID` keeping the first occurrence; 3. drop rows with null
`End date/time`; 4. keep `Type == '干清'`; 5. keep `Location` in the
allow-list; 6. keep `Time Elapsed (seconds) <= time_threshold` (a null
elapsed time compares false in pandas and is dropped).  Step 7 of the source
only rescales the three duration columns seconds→minutes and renames them;
it does not change row membership and is applied when values are read
(`toPoint` below). -/
def clean_batch (rows : List BatchRow) (timeThreshold : ℚ) : List BatchRow :=
  (((((dedupFirst (fun r => r.processOrderId)
              (rows.filter (fun r => r.processOrderId.isSome))).filter
            (fun r => r.endTime.isSome)).filter
          (fun r => decide (r.type = "干清"))).filter
        (fun r => decide (r.location ∈ allowed_locations))).filter
    (fun r =>
      match r.timeElapsed with
      | some v => decide (v ≤ timeThreshold)
      | none => false))

/-! ### WindowSelector -/

/-- Sort key of the window selector: the `End date/time` timestamp.  After
cleaning step 3 the field is always present; `getD` supplies an irrelevant
default for the general statement. -/
def rowTime (r : BatchRow) : ℤ :=
  r.endTime.getD 0

/-- `df.sort_values('End date/time', ascending=False).head(n)` followed by
`.sort_values('End date/time', ascending=True)`.  Per the modelling note at
the top, the descending sort is embedded as the reverse of the ascending
sort (pandas' `nargsort` reversal), and the general theorem about this
selector asserts only properties that are independent of how the sort
orders equal keys. -/
def select_window (rows : List BatchRow) (n : ℕ) : List BatchRow :=
  sortAscBy rowTime (((sortAscBy rowTime rows).reverse).take n)

/-! ### ControlLimitCalculator -/

/-- `ucl = target_mean * 1.2`. -/
def ucl (tm : ℚ) : ℚ := tm * 1.2

/-- `lcl = max(0, target_mean * 0.8)`. -/
def lcl (tm : ℚ) : ℚ := max 0 (tm * 0.8)

/-- `uwl = target_mean * 1.5`. -/
def uwl (tm : ℚ) : ℚ := tm * 1.5

/-- `lwl = max(0, target_mean * 0.5)`. -/
def lwl (tm : ℚ) : ℚ := max 0 (tm * 0.5)

/-- `usl = target_mean * 1.2`. -/
def usl (tm : ℚ) : ℚ := tm * 1.2

/-- `lsl = target_mean * 0.8` (note: unlike `lcl`, not clamped at 0). -/
def lsl (tm : ℚ) : ℚ := tm * 0.8

/-! ### StatisticsEngine -/

/-- `np.mean`. -/
def mean (l : List ℚ) : ℚ := l.sum / l.length

/-- `np.median`: middle of the sorted data, or the average of the two middle
elements for even length. -/
def median (l : List ℚ) : ℚ :=
  let s := sortAscBy id l
  if l.length % 2 = 1 then s.getD (l.length / 2) 0
  else (s.getD (l.length / 2 - 1) 0 + s.getD (l.length / 2) 0) / 2

/-- Square of `np.std(data, ddof=1)` (Bessel-corrected sample variance).
For a single data point the source's std is NaN (0/0); here rational
division by zero yields 0, and no verified property touches that case. -/
def sample_variance (l : List ℚ) : ℚ :=
  (l.map (fun x => (x - mean l) ^ 2)).sum / ((l.length : ℚ) - 1)

/-- Square of `np.std(data, ddof=0)` (population variance). -/
def pop_variance (l : List ℚ) : ℚ :=
  (l.map (fun x => (x - mean l) ^ 2)).sum / (l.length : ℚ)

/-- `cpu = (usl - overall_mean) / (3 * overall_std) if overall_std > 0 else 0`,
with the standard deviation passed as the parameter `s`. -/
def cpu (uslV m s : ℚ) : ℚ := if 0 < s then (uslV - m) / (3 * s) else 0

/-- `cpl = (overall_mean - lsl) / (3 * overall_std) if overall_std > 0 else 0`. -/
def cpl (lslV m s : ℚ) : ℚ := if 0 < s then (m - lslV) / (3 * s) else 0

/-- `cpk = min(cpu, cpl)`. -/
def cpk (uslV lslV m s : ℚ) : ℚ := min (cpu uslV m s) (cpl lslV m s)

/-- `cp = (usl - lsl) / (6 * overall_std) if overall_std > 0 else 0`. -/
def cp (uslV lslV s : ℚ) : ℚ := if 0 < s then (uslV - lslV) / (6 * s) else 0

/-- `ppu = (usl - overall_mean) / (3 * std_total) if std_total > 0 else 0`. -/
def ppu (uslV m t : ℚ) : ℚ := if 0 < t then (uslV - m) / (3 * t) else 0

/-- `ppl = (overall_mean - lsl) / (3 * std_total) if std_total > 0 else 0`. -/
def ppl (lslV m t : ℚ) : ℚ := if 0 < t then (m - lslV) / (3 * t) else 0

/-- `ppk = min(ppu, ppl)`. -/
def ppk (uslV lslV m t : ℚ) : ℚ := min (ppu uslV m t) (ppl lslV m t)

/-- The exactly-representable part of the `results['statistics']` block
(the std-derived fields carry the variances instead of the irrational
standard deviations; capability indices are the parametric `cpu`/`cpl`/…
functions above). -/
structure StatisticsBlock where
  nPoints : ℕ
  overallMean : ℚ
  overallMedian : ℚ
  minValue : ℚ
  maxValue : ℚ
  rangeValue : ℚ
  targetMean : ℚ
  uclV : ℚ
  lclV : ℚ
  uwlV : ℚ
  lwlV : ℚ
  uslV : ℚ
  lslV : ℚ
  sampleVar : ℚ
  popVar : ℚ
deriving DecidableEq

/-- The statistics stage of `analyze_batch_data`.  On an empty window the
numpy reductions it runs (`np.percentile`, `np.min`, `np.max`, and the
`stats.mode(...)[0]` access) raise; that failure is the InsufficientData
condition and is modelled as an `Except.error`. -/
def compute_statistics (data targets : List ℚ) : Except AnalysisError StatisticsBlock :=
  if data.isEmpty then .error .insufficientData
  else
    let tm := mean targets
    .ok
      { nPoints := data.length
        overallMean := mean data
        overallMedian := median data
        minValue := (data.min?).getD 0
        maxValue := (data.max?).getD 0
        rangeValue := (data.max?).getD 0 - (data.min?).getD 0
        targetMean := tm
        uclV := ucl tm
        lclV := lcl tm
        uwlV := uwl tm
        lwlV := lwl tm
        uslV := usl tm
        lslV := lsl tm
        sampleVar := sample_variance data
        popVar := pop_variance data }

/-! ### AnomalyDetector -/

/-- Actual values of the window (`data_values`). -/
def values (pts : List SPCPoint) : List ℚ := pts.map SPCPoint.value

/-- Rule 1 (`for i, value in enumerate(data_values)`): indices with
`value > ucl or value < lcl`. -/
def rule1_indices (data : List ℚ) (u l : ℚ) : List ℕ :=
  (List.range data.length).filter
    (fun i => decide (u < data.getD i 0) || decide (data.getD i 0 < l))

/-- `check_consecutive_on_one_side(data, target, n=9)`: for every start
offset `i` in `range(len(data) - n + 1)` (the bound `length + 1 - n` equals
Python's clamped-at-empty range), if the `n`-point segment is entirely
strictly above or entirely strictly below `target`, every index of the
segment is collected; duplicates removed as `list(set(...))`. -/
def check_consecutive_on_one_side (data : List ℚ) (target : ℚ) (n : ℕ) : List ℕ :=
  runUnion
    ((List.range (data.length + 1 - n)).filter (fun i =>
      ((data.drop i).take n).all (fun x => decide (target < x)) ||
      ((data.drop i).take n).all (fun x => decide (x < target))))
    n

/-- `check_trend(data, n=6)`: segments that are strictly increasing at every
adjacent pair, or strictly decreasing at every adjacent pair. -/
def check_trend (data : List ℚ) (n : ℕ) : List ℕ :=
  runUnion
    ((List.range (data.length + 1 - n)).filter (fun i =>
      (List.range (n - 1)).all (fun j =>
        decide (((data.drop i).take n).getD j 0 < ((data.drop i).take n).getD (j + 1) 0)) ||
      (List.range (n - 1)).all (fun j =>
        decide (((data.drop i).take n).getD (j + 1) 0 < ((data.drop i).take n).getD j 0))))
    n

/-- `check_alternating(data, n=14)`: segments whose adjacent differences
strictly alternate starting upward (`segment[j] < segment[j+1]` for even `j`,
`segment[j] > segment[j+1]` for odd `j`). -/
def check_alternating (data : List ℚ) (n : ℕ) : List ℕ :=
  runUnion
    ((List.range (data.length + 1 - n)).filter (fun i =>
      (List.range (n - 1)).all (fun j =>
        if j % 2 = 0 then
          decide (((data.drop i).take n).getD j 0 < ((data.drop i).take n).getD (j + 1) 0)
        else
          decide (((data.drop i).take n).getD (j + 1) 0 < ((data.drop i).take n).getD j 0))))
    n

/-- The anomaly record appended for point index `i` (0-based) under rule
`ruleId`: `序号 = i+1` and the attribution columns of `df_sorted.iloc[i]`.
The source's `round(..., 2)` on the three value fields is not modelled. -/
def mkRecord (pts : List SPCPoint) (ruleId : ℕ) (i : ℕ) : AnomalyRecord :=
  let p := pts.getD i default
  ⟨i + 1, p.location, p.processId, p.endTime, p.value, p.target, p.value - p.target, ruleId⟩

/-- The 0-based point index of a record (`a['序号'] - 1` in the source's
skip checks). -/
def recIdx (r : AnomalyRecord) : ℕ := r.seq - 1

/-- Processing of one rule's index list: each index is appended as a record
unless some already-collected record has the same point index
(`if idx not in [a['序号']-1 for a in anomaly_records]`). -/
def addRule (pts : List SPCPoint) (ruleId : ℕ) (idxs : List ℕ)
    (recs : List AnomalyRecord) : List AnomalyRecord :=
  idxs.foldl
    (fun acc idx =>
      if acc.any (fun a => decide (a.seq - 1 = idx)) then acc
      else acc ++ [mkRecord pts ruleId idx])
    recs

/-- The anomaly-record accumulation of `analyze_batch_data`: rule 1 appends a
record for every out-of-limit index (no skip check is needed since the
enumeration visits each index once), then rules 2, 3 and 4 are processed in
order with the skip check. -/
def detect (pts : List SPCPoint) (tm u l : ℚ) : List AnomalyRecord :=
  addRule pts 4 (check_alternating (values pts) 14)
    (addRule pts 3 (check_trend (values pts) 6)
      (addRule pts 2 (check_consecutive_on_one_side (values pts) tm 9)
        ((rule1_indices (values pts) u l).map (mkRecord pts 1))))

/-- `anomaly_df.drop_duplicates(subset=['批次号', '时间'])` followed by
`anomaly_df.sort_values('序号')`. -/
def finalize (recs : List AnomalyRecord) : List AnomalyRecord :=
  sortAscBy (fun r => r.seq) (dedupFirst (fun r => (r.processId, r.time)) recs)

/-- The label the specification attributes to a flagged point: the first
rule, in the fixed order 1→2→3→4, whose index set contains the point.
This is the spec-side comparator for the attribution claim; `detect` above
is the source-side computation. -/
def specFirstRule (data : List ℚ) (tm u l : ℚ) (i : ℕ) : ℕ :=
  if i ∈ rule1_indices data u l then 1
  else if i ∈ check_consecutive_on_one_side data tm 9 then 2
  else if i ∈ check_trend data 6 then 3
  else 4

/-! ### Batch pipeline -/

/-- Extraction of one window row into an `SPCPoint`: the seconds→minutes
conversion of step 7 (`/ 60`; the 2-decimal rounding is not modelled) applied
to `Time Elapsed` and `Planned Duration`, plus the attribution columns. -/
def toPoint (r : BatchRow) : SPCPoint :=
  { value := r.timeElapsed.getD 0 / 60
    target := r.plannedDuration.getD 0 / 60
    location := r.location
    processId := r.processOrderId.getD ""
    endTime := r.endTime.getD 0 }

/-- The structured result of the batch pipeline: the statistics block and the
deduplicated, index-sorted anomaly list. -/
structure BatchResult where
  statistics : StatisticsBlock
  anomalies : List AnomalyRecord
deriving DecidableEq

/-- `analyze_batch_data` minus presentation: clean, select the window,
compute statistics (failing on an empty window), then detect anomalies
against `target_mean`/`ucl`/`lcl` and finalize them. -/
def analyze_batch (rows : List BatchRow) (analysisPoints : ℕ) (timeThreshold : ℚ) :
    Except AnalysisError BatchResult :=
  match compute_statistics
      (values ((select_window (clean_batch rows timeThreshold) analysisPoints).map toPoint))
      (((select_window (clean_batch rows timeThreshold) analysisPoints).map toPoint).map
        SPCPoint.target) with
  | .error e => .error e
  | .ok st =>
      .ok
        { statistics := st
          anomalies :=
            finalize
              (detect ((select_window (clean_batch rows timeThreshold) analysisPoints).map toPoint)
                st.targetMean st.uclV st.lclV) }

/-! ### Activity pipeline (`analyze_activity_data`) -/

/-- `area_list` of `analyze_activity_data` — note the spellings `'CPLine 9'`
(no space) and `'CP Line08'`, which differ from the batch pipeline's
allow-list. -/
def area_list : List String :=
  ["CPLine 9", "CP Line 10", "CP Line 11", "CP Line 12", "CP Line 05", "CP Line08"]

/-- The activity-data cleaning: filter `Area` to `area_list`, filter
`Changeover Type == '干清'`, drop rows with null `Actual Duration (seconds)`.
The subsequent seconds→minutes conversion adds a derived column and does not
change row membership. -/
def clean_activity (rows : List ActivityRow) : List ActivityRow :=
  ((rows.filter (fun r => decide (r.area ∈ area_list))).filter
      (fun r => decide (r.changeoverType = "干清"))).filter
    (fun r => r.actualDuration.isSome)

/-- `phase_data = df[df['Phase Name'] == phase]` over the cleaned rows: the
record set every per-phase statistic of the phase analysis is computed from. -/
def phase_data (rows : List ActivityRow) (phase : String) : List ActivityRow :=
  (clean_activity rows).filter (fun r => decide (r.phaseName = phase))

open List
/-! ### Lemmas about the generic machinery -/


theorem perm_sinsertAsc {α β : Type} [LinearOrder β] (key : α → β) (x : α) (l : List α) :
    sinsertAsc key x l ~ x :: l := by
  induction l with
  | nil => rfl
  | cons y ys ih =>
    rw [sinsertAsc]
    by_cases h : key y < key x
    · rw [if_pos h]
      exact (ih.cons y).trans (List.Perm.swap x y ys)
    · rw [if_neg h]

theorem perm_sortAscBy {α β : Type} [LinearOrder β] (key : α → β) (l : List α) :
    sortAscBy key l ~ l := by
  induction l with
  | nil => rfl
  | cons x xs ih => exact (perm_sinsertAsc key x (sortAscBy key xs)).trans (ih.cons x)

theorem mem_sinsertAsc {α β : Type} [LinearOrder β] {key : α → β} {x z : α} {l : List α} :
    z ∈ sinsertAsc key x l ↔ z = x ∨ z ∈ l := by
  rw [(perm_sinsertAsc key x l).mem_iff, List.mem_cons]

theorem length_sortAscBy {α β : Type} [LinearOrder β] (key : α → β) (l : List α) :
    (sortAscBy key l).length = l.length :=
  (perm_sortAscBy key l).length_eq

theorem pairwise_sinsertAsc {α β : Type} [LinearOrder β] (key : α → β) (x : α) {l : List α}
    (h : l.Pairwise (fun a b => key a ≤ key b)) :
    (sinsertAsc key x l).Pairwise (fun a b => key a ≤ key b) := by
  induction l with
  | nil => simp [sinsertAsc]
  | cons y ys ih =>
    rw [List.pairwise_cons] at h
    obtain ⟨hy, hys⟩ := h
    rw [sinsertAsc]
    by_cases hk : key y < key x
    · rw [if_pos hk]
      refine List.Pairwise.cons ?_ (ih hys)
      intro z hz
      rcases mem_sinsertAsc.mp hz with rfl | hz'
      · exact le_of_lt hk
      · exact hy z hz'
    · rw [if_neg hk]
      refine List.Pairwise.cons ?_ (List.Pairwise.cons hy hys)
      intro z hz
      rcases List.mem_cons.mp hz with rfl | hz'
      · exact not_lt.mp hk
      · exact le_trans (not_lt.mp hk) (hy z hz')

theorem pairwise_sortAscBy {α β : Type} [LinearOrder β] (key : α → β) (l : List α) :
    (sortAscBy key l).Pairwise (fun a b => key a ≤ key b) := by
  induction l with
  | nil => simp [sortAscBy]
  | cons x xs ih => exact pairwise_sinsertAsc key x ih

theorem sublist_dedupFirstAux {α β : Type} [DecidableEq β] (key : α → β) :
    ∀ (seen : List β) (l : List α), dedupFirstAux key seen l <+ l := by
  intro seen l
  induction l generalizing seen with
  | nil => simp [dedupFirstAux]
  | cons x xs ih =>
    rw [dedupFirstAux]
    by_cases h : key x ∈ seen
    · rw [if_pos h]
      exact (ih seen).cons x
    · rw [if_neg h]
      exact (ih (key x :: seen)).cons₂ x

theorem key_notin_seen_dedupFirstAux {α β : Type} [DecidableEq β] {key : α → β} :
    ∀ (seen : List β) (l : List α), ∀ r ∈ dedupFirstAux key seen l, key r ∉ seen := by
  intro seen l
  induction l generalizing seen with
  | nil => simp [dedupFirstAux]
  | cons x xs ih =>
    intro r hr
    rw [dedupFirstAux] at hr
    by_cases h : key x ∈ seen
    · rw [if_pos h] at hr
      exact ih seen r hr
    · rw [if_neg h] at hr
      rcases List.mem_cons.mp hr with rfl | hr'
      · exact h
      · intro hseen
        exact ih (key x :: seen) r hr' (List.mem_cons_of_mem _ hseen)

theorem pairwise_key_dedupFirstAux {α β : Type} [DecidableEq β] (key : α → β) :
    ∀ (seen : List β) (l : List α),
      (dedupFirstAux key seen l).Pairwise (fun a b => key a ≠ key b) := by
  intro seen l
  induction l generalizing seen with
  | nil => simp [dedupFirstAux]
  | cons x xs ih =>
    rw [dedupFirstAux]
    by_cases h : key x ∈ seen
    · rw [if_pos h]
      exact ih seen
    · rw [if_neg h]
      refine List.Pairwise.cons ?_ (ih (key x :: seen))
      intro b hb hkey
      exact key_notin_seen_dedupFirstAux (key x :: seen) xs b hb (hkey ▸ List.mem_cons_self _ _)

theorem head_filter_dedupFirstAux {α β : Type} [DecidableEq β] {key : α → β} :
    ∀ (seen : List β) (l : List α), ∀ r ∈ dedupFirstAux key seen l,
      (l.filter (fun a => decide (key a = key r))).head? = some r := by
  intro seen l
  induction l generalizing seen with
  | nil => simp [dedupFirstAux]
  | cons x xs ih =>
    intro r hr
    rw [dedupFirstAux] at hr
    by_cases h : key x ∈ seen
    · rw [if_pos h] at hr
      have hne : ¬ key x = key r := by
        intro he
        exact key_notin_seen_dedupFirstAux seen xs r hr (he ▸ h)
      rw [List.filter_cons]
      simp only [List.filter_cons, decide_eq_false hne]
      exact ih seen r hr
    · rw [if_neg h] at hr
      rcases List.mem_cons.mp hr with rfl | hr'
      · rw [List.filter_cons]
        simp
      · have hne : ¬ key x = key r := by
          intro he
          exact key_notin_seen_dedupFirstAux (key x :: seen) xs r hr'
            (he ▸ List.mem_cons_self _ _)
        rw [List.filter_cons]
        simp only [List.filter_cons, decide_eq_false hne]
        exact ih (key x :: seen) r hr'

theorem sublist_dedupFirst {α β : Type} [DecidableEq β] (key : α → β) (l : List α) :
    dedupFirst key l <+ l :=
  sublist_dedupFirstAux key [] l

theorem pairwise_key_dedupFirst {α β : Type} [DecidableEq β] (key : α → β) (l : List α) :
    (dedupFirst key l).Pairwise (fun a b => key a ≠ key b) :=
  pairwise_key_dedupFirstAux key [] l

theorem head_filter_dedupFirst {α β : Type} [DecidableEq β] {key : α → β} {l : List α}
    {r : α} (hr : r ∈ dedupFirst key l) :
    (l.filter (fun a => decide (key a = key r))).head? = some r :=
  head_filter_dedupFirstAux [] l r hr

theorem runEntries_cons {s : ℕ} {ss : List ℕ} {n : ℕ} :
    runEntries (s :: ss) n = ((List.range n).map (fun j => s + j)) ++ runEntries ss n := rfl

theorem mem_runEntries {n i : ℕ} :
    ∀ starts : List ℕ, i ∈ runEntries starts n ↔ ∃ s ∈ starts, s ≤ i ∧ i < s + n := by
  intro starts
  induction starts with
  | nil => simp [runEntries]
  | cons s ss ih =>
    rw [runEntries_cons, List.mem_append, ih]
    constructor
    · rintro (hm | ⟨s', hs', h1, h2⟩)
      · obtain ⟨j, hj, rfl⟩ := List.mem_map.mp hm
        rw [List.mem_range] at hj
        exact ⟨s, List.mem_cons_self s ss, Nat.le_add_right s j, by omega⟩
      · exact ⟨s', List.mem_cons_of_mem _ hs', h1, h2⟩
    · rintro ⟨s', hs', h1, h2⟩
      rcases List.mem_cons.mp hs' with rfl | hmem
      · exact Or.inl (List.mem_map.mpr ⟨i - s', List.mem_range.mpr (by omega), by omega⟩)
      · exact Or.inr ⟨s', hmem, h1, h2⟩

theorem mem_runUnion {starts : List ℕ} {n i : ℕ} :
    i ∈ runUnion starts n ↔ ∃ s ∈ starts, s ≤ i ∧ i < s + n := by
  rw [runUnion, List.mem_dedup]
  exact mem_runEntries starts

theorem getD_drop {α : Type} (d : α) : ∀ (s : ℕ) (l : List α) (j : ℕ),
    (l.drop s).getD j d = l.getD (s + j) d := by
  intro s
  induction s with
  | zero => simp
  | succ m ih =>
    intro l j
    cases l with
    | nil => simp
    | cons x xs =>
      rw [List.drop_succ_cons, ih xs j]
      have he : m + 1 + j = (m + j) + 1 := by omega
      rw [he, List.getD_cons_succ]

theorem getD_take {α : Type} (d : α) : ∀ (l : List α) (n j : ℕ), j < n →
    (l.take n).getD j d = l.getD j d := by
  intro l
  induction l with
  | nil => simp
  | cons x xs ih =>
    intro n j hj
    cases n with
    | zero => omega
    | succ m =>
      rw [List.take_succ_cons]
      cases j with
      | zero => rfl
      | succ k =>
        rw [List.getD_cons_succ, List.getD_cons_succ]
        exact ih m k (by omega)

theorem getD_seg {data : List ℚ} {s n j : ℕ} (hj : j < n) :
    ((data.drop s).take n).getD j 0 = data.getD (s + j) 0 := by
  rw [getD_take 0 _ _ _ hj, getD_drop]

theorem length_seg {data : List ℚ} {s n : ℕ} (h : s + n ≤ data.length) :
    ((data.drop s).take n).length = n := by
  rw [List.length_take, List.length_drop]
  omega

theorem all_seg_iff {p : ℚ → Bool} {data : List ℚ} {s n : ℕ} (h : s + n ≤ data.length) :
    ((data.drop s).take n).all p = true ↔ ∀ j, j < n → p (data.getD (s + j) 0) = true := by
  rw [List.all_eq_true]
  constructor
  · intro ha j hj
    have hjlen : j < ((data.drop s).take n).length := by rw [length_seg h]; exact hj
    have hmem : ((data.drop s).take n).getD j 0 ∈ (data.drop s).take n := by
      rw [List.getD_eq_getElem _ _ hjlen]
      exact List.getElem_mem hjlen
    have hp := ha _ hmem
    rwa [getD_seg hj] at hp
  · intro hx x hxmem
    obtain ⟨j, hjlen, rfl⟩ := List.mem_iff_getElem.mp hxmem
    have hj : j < n := by rw [length_seg h] at hjlen; exact hjlen
    rw [← List.getD_eq_getElem _ 0 hjlen, getD_seg hj]
    exact hx j hj

theorem all_range_iff {p : ℕ → Bool} {m : ℕ} :
    (List.range m).all p = true ↔ ∀ j, j < m → p j = true := by
  rw [List.all_eq_true]
  constructor
  · intro h j hj
    exact h j (List.mem_range.mpr hj)
  · intro h j hj
    exact h j (List.mem_range.mp hj)

/-! ### Claim C7 (corrected) -/

/-- C7 counterexample: the claim asserts `lcl = lsl` for every target_mean,
but at `target_mean = -1` the code's `lcl = max(0, -0.8) = 0` while
`lsl = -0.8`, so the asserted equality is false there. -/
theorem limits_clamp_counterexample :
    lcl (-1) = 0 ∧ lsl (-1) = -4/5 ∧ lcl (-1) ≠ lsl (-1) := by
  have h1 : lcl (-1) = 0 := by
    rw [lcl]
    exact max_eq_left (by norm_num)
  have h2 : lsl (-1) = -4/5 := by
    rw [lsl]
    norm_num
  refine ⟨h1, h2, ?_⟩
  rw [h1, h2]
  norm_num

/-- C7 amended: for every target_mean, `ucl = usl = target_mean * 1.2` and
`lsl = target_mean * 0.8`, while `lcl = max(0, target_mean * 0.8)` and
`lwl = max(0, target_mean * 0.5)` are clamped to be non-negative; `ucl = usl`
holds by construction, and `lcl = lsl` holds whenever `target_mean ≥ 0`
(the clamp breaks the equality for negative target_mean). -/
theorem control_limits_spec_amended (tm : ℚ) :
    ucl tm = usl tm ∧ ucl tm = tm * 1.2 ∧ lsl tm = tm * 0.8 ∧
    lcl tm = max 0 (tm * 0.8) ∧ lwl tm = max 0 (tm * 0.5) ∧
    0 ≤ lcl tm ∧ 0 ≤ lwl tm ∧ (0 ≤ tm → lcl tm = lsl tm) := by
  refine ⟨rfl, rfl, rfl, rfl, rfl, le_max_left 0 _, le_max_left 0 _, ?_⟩
  intro h
  rw [lcl, lsl]
  exact max_eq_right (by positivity)

/-- Witness for C7's amended claim at `target_mean = 2`. -/
theorem control_limits_spec_amended_witness :
    ucl 2 = usl 2 ∧ lcl 2 = lsl 2 :=
  ⟨(control_limits_spec_amended 2).1,
   (control_limits_spec_amended 2).2.2.2.2.2.2.2 (by norm_num)⟩

/-! ### Claim C10 (confirmed) -/

/-- C10: after activity-data cleaning every surviving row has `Area` in the
six-string `area_list` (spelled `'CPLine 9'` and `'CP Line08'`), and rows
whose `Area` is `'CP Line 9'` or `'CP Line 08'` — the batch pipeline's
spellings — appear in no phase's record set. -/
theorem activity_area_allowlist (rows : List ActivityRow) :
    (∀ r ∈ clean_activity rows, r.area ∈ area_list) ∧
    (∀ r : ActivityRow, (r.area = "CP Line 9" ∨ r.area = "CP Line 08") →
      ∀ phase, r ∉ phase_data rows phase) := by
  constructor
  · intro r hr
    rw [clean_activity] at hr
    have h1 := List.mem_filter.mp hr
    have h2 := List.mem_filter.mp h1.1
    have h3 := List.mem_filter.mp h2.1
    exact of_decide_eq_true h3.2
  · intro r harea phase hmem
    rw [phase_data] at hmem
    have h1 := (List.mem_filter.mp hmem).1
    rw [clean_activity] at h1
    have h2 := List.mem_filter.mp h1
    have h3 := List.mem_filter.mp h2.1
    have h4 := List.mem_filter.mp h3.1
    have hin : r.area ∈ area_list := of_decide_eq_true h4.2
    rcases harea with h | h <;> rw [h] at hin <;> revert hin <;> decide

/-- Witness for C10: a row spelled with the batch pipeline's `'CP Line 9'`
is excluded from the `'清场'` phase data. -/
theorem activity_area_allowlist_witness :
    (⟨"CP Line 9", "干清", some 1, "清场", "t", "o", "p"⟩ : ActivityRow) ∉
      phase_data [⟨"CP Line 9", "干清", some 1, "清场", "t", "o", "p"⟩] "清场" :=
  (activity_area_allowlist _).2 _ (Or.inl rfl) "清场"

/-! ### Claim C4 (confirmed) -/

/-- C4: whenever the cleaned-and-selected window is empty, the batch pipeline
reports the InsufficientData failure of the statistics stage; no statistics
block and no anomaly list is produced. -/
theorem empty_window_insufficient_data (rows : List BatchRow) (n : ℕ) (th : ℚ)
    (h : select_window (clean_batch rows th) n = []) :
    analyze_batch rows n th = .error .insufficientData := by
  rw [analyze_batch, h]
  rfl

/-- Witness for C4: the empty input dataset cleans to an empty window and the
pipeline reports InsufficientData. -/
theorem empty_window_insufficient_data_witness :
    select_window (clean_batch [] 10800) 100 = [] ∧
    analyze_batch [] 100 10800 = .error .insufficientData :=
  ⟨rfl, empty_window_insufficient_data [] 100 10800 rfl⟩
/-! ### Claim C6 (confirmed) -/

/-- C6: with `s` the sample standard deviation (`s * s` is the ddof=1
variance) and `t` the population standard deviation (`t * t` is the ddof=0
variance) of the window, the capability indices satisfy
`Cpk = min(Cpu, Cpl)` and `Ppk = min(Ppu, Ppl)` with
`Cpu = (usl - mean)/(3s)`, `Cpl = (mean - lsl)/(3s)` (and the `t` analogues),
`Cp = (usl - lsl)/(6s)`, and `Cp`, `Cpk`, `Ppk` are 0 — not NaN and not an
error — whenever the relevant variance (equivalently standard deviation)
is 0. -/
theorem capability_indices_spec (data : List ℚ) (uslV lslV s t : ℚ)
    (hs : 0 ≤ s) (hs2 : s * s = sample_variance data)
    (ht : 0 ≤ t) (ht2 : t * t = pop_variance data) :
    cpk uslV lslV (mean data) s = min (cpu uslV (mean data) s) (cpl lslV (mean data) s) ∧
    ppk uslV lslV (mean data) t = min (ppu uslV (mean data) t) (ppl lslV (mean data) t) ∧
    (0 < s → cpu uslV (mean data) s = (uslV - mean data) / (3 * s) ∧
      cpl lslV (mean data) s = (mean data - lslV) / (3 * s) ∧
      cp uslV lslV s = (uslV - lslV) / (6 * s)) ∧
    (0 < t → ppu uslV (mean data) t = (uslV - mean data) / (3 * t) ∧
      ppl lslV (mean data) t = (mean data - lslV) / (3 * t)) ∧
    (sample_variance data = 0 → cp uslV lslV s = 0 ∧ cpk uslV lslV (mean data) s = 0) ∧
    (pop_variance data = 0 → ppk uslV lslV (mean data) t = 0) := by
  refine ⟨rfl, rfl, ?_, ?_, ?_, ?_⟩
  · intro h
    exact ⟨if_pos h, if_pos h, if_pos h⟩
  · intro h
    exact ⟨if_pos h, if_pos h⟩
  · intro h0
    have hs0 : s = 0 := mul_self_eq_zero.mp (hs2.trans h0)
    subst hs0
    constructor
    · rw [cp, if_neg (lt_irrefl 0)]
    · rw [cpk, cpu, cpl, if_neg (lt_irrefl 0), if_neg (lt_irrefl 0)]
      exact min_self 0
  · intro h0
    have ht0 : t = 0 := mul_self_eq_zero.mp (ht2.trans h0)
    subst ht0
    rw [ppk, ppu, ppl, if_neg (lt_irrefl 0), if_neg (lt_irrefl 0)]
    exact min_self 0

/-- Witness for C6 on the constant window `[5, 5]` (the only windows whose
sample and population variances are simultaneously rational squares are the
degenerate, zero-variance ones): both standard deviations are 0 and all
guarded indices evaluate to 0. -/
theorem capability_indices_spec_witness :
    sample_variance [(5 : ℚ), 5] = 0 ∧ pop_variance [(5 : ℚ), 5] = 0 ∧
    cpk 12 8 (mean [(5 : ℚ), 5]) 0 = 0 ∧ ppk 12 8 (mean [(5 : ℚ), 5]) 0 = 0 := by
  have hsv : sample_variance [(5 : ℚ), 5] = 0 := by
    norm_num [sample_variance, mean]
  have hpv : pop_variance [(5 : ℚ), 5] = 0 := by
    norm_num [pop_variance, mean]
  have h := capability_indices_spec [(5 : ℚ), 5] 12 8 0 0 (le_refl 0)
    (by rw [hsv]; norm_num) (le_refl 0) (by rw [hpv]; norm_num)
  exact ⟨hsv, hpv, (h.2.2.2.2.1 hsv).2, h.2.2.2.2.2 hpv⟩

/-! ### Claim C2 (confirmed) -/

/-- C2: rule 2 flags exactly the indices covered by some contiguous run of 9
consecutive points all strictly above or all strictly below `target_mean`,
each flagged index recorded once; and on the 9-point window of constant
value 15 with target 10 it flags all 9 indices. -/
theorem rule2_run_characterization :
    (∀ (data : List ℚ) (t : ℚ) (i : ℕ),
      i ∈ check_consecutive_on_one_side data t 9 ↔
        ∃ s, s + 9 ≤ data.length ∧ s ≤ i ∧ i < s + 9 ∧
          ((∀ j, j < 9 → t < data.getD (s + j) 0) ∨
           (∀ j, j < 9 → data.getD (s + j) 0 < t))) ∧
    (∀ (data : List ℚ) (t : ℚ), (check_consecutive_on_one_side data t 9).Nodup) ∧
    check_consecutive_on_one_side (List.replicate 9 (15 : ℚ)) 10 9 = List.range 9 := by
  refine ⟨?_, fun data t => List.nodup_dedup _, by decide⟩
  intro data t i
  rw [check_consecutive_on_one_side, mem_runUnion]
  constructor
  · rintro ⟨s, hs, h1, h2⟩
    have hfil := List.mem_filter.mp hs
    have hrange := List.mem_range.mp hfil.1
    have hlen : s + 9 ≤ data.length := by omega
    refine ⟨s, hlen, h1, h2, ?_⟩
    rcases Bool.or_eq_true _ _ |>.mp hfil.2 with hab | hab
    · left
      intro j hj
      exact of_decide_eq_true ((all_seg_iff hlen).mp hab j hj)
    · right
      intro j hj
      exact of_decide_eq_true ((all_seg_iff hlen).mp hab j hj)
  · rintro ⟨s, hlen, h1, h2, hcond⟩
    refine ⟨s, ?_, h1, h2⟩
    rw [List.mem_filter]
    refine ⟨List.mem_range.mpr (by omega), ?_⟩
    rw [Bool.or_eq_true]
    rcases hcond with hc | hc
    · exact Or.inl ((all_seg_iff hlen).mpr fun j hj => decide_eq_true (hc j hj))
    · exact Or.inr ((all_seg_iff hlen).mpr fun j hj => decide_eq_true (hc j hj))

/-! ### Claim C3 (confirmed) -/

/-- C3: rule 4 flags exactly the indices covered by some contiguous run of 14
consecutive points whose adjacent differences strictly alternate in sign
starting upward (`v[s] < v[s+1] > v[s+2] < ...`), and a window of fewer than
14 points yields no flags and no error (the scan is simply empty). -/
theorem rule4_alternation_characterization :
    (∀ (data : List ℚ) (i : ℕ),
      i ∈ check_alternating data 14 ↔
        ∃ s, s + 14 ≤ data.length ∧ s ≤ i ∧ i < s + 14 ∧
          ∀ j, j < 13 →
            (if j % 2 = 0 then data.getD (s + j) 0 < data.getD (s + j + 1) 0
             else data.getD (s + j + 1) 0 < data.getD (s + j) 0)) ∧
    (∀ data : List ℚ, data.length < 14 → check_alternating data 14 = []) := by
  constructor
  · intro data i
    rw [check_alternating, mem_runUnion]
    constructor
    · rintro ⟨s, hs, h1, h2⟩
      have hfil := List.mem_filter.mp hs
      have hrange := List.mem_range.mp hfil.1
      have hlen : s + 14 ≤ data.length := by omega
      refine ⟨s, hlen, h1, h2, ?_⟩
      intro j hj
      have hall := all_range_iff.mp hfil.2 j (by omega)
      by_cases hpar : j % 2 = 0
      · rw [if_pos hpar]
        rw [if_pos hpar] at hall
        have := of_decide_eq_true hall
        rwa [getD_seg (by omega : j < 14), getD_seg (by omega : j + 1 < 14)] at this
      · rw [if_neg hpar]
        rw [if_neg hpar] at hall
        have := of_decide_eq_true hall
        rwa [getD_seg (by omega : j < 14), getD_seg (by omega : j + 1 < 14)] at this
    · rintro ⟨s, hlen, h1, h2, hcond⟩
      refine ⟨s, ?_, h1, h2⟩
      rw [List.mem_filter]
      refine ⟨List.mem_range.mpr (by omega), ?_⟩
      refine all_range_iff.mpr fun j hj => ?_
      have hj13 : j < 13 := by omega
      have hc := hcond j hj13
      by_cases hpar : j % 2 = 0
      · rw [if_pos hpar]
        rw [if_pos hpar] at hc
        rw [getD_seg (by omega : j < 14), getD_seg (by omega : j + 1 < 14)]
        exact decide_eq_true hc
      · rw [if_neg hpar]
        rw [if_neg hpar] at hc
        rw [getD_seg (by omega : j < 14), getD_seg (by omega : j + 1 < 14)]
        exact decide_eq_true hc
  · intro data h
    rw [check_alternating]
    have h0 : data.length + 1 - 14 = 0 := by omega
    rw [h0]
    rfl

/-- Witness for C3's short-window conjunct on a 3-point window. -/
theorem rule4_alternation_characterization_witness :
    ([(1 : ℚ), 2, 3].length < 14) ∧ check_alternating [(1 : ℚ), 2, 3] 14 = [] :=
  ⟨by decide, rule4_alternation_characterization.2 [(1 : ℚ), 2, 3] (by decide)⟩
/-! ### Claim C9 (confirmed) -/

/-- C9: every record surviving batch cleaning has a non-null process order
id, a non-null end time, the dry-clean type, a location in the six-line
allow-list and an elapsed time at most the configured threshold; process
order ids are unique among survivors, and each survivor is the first input
row bearing its process order id (first occurrence wins on duplicates). -/
theorem clean_batch_invariant (rows : List BatchRow) (th : ℚ) :
    ((clean_batch rows th).map BatchRow.processOrderId).Nodup ∧
    ∀ r ∈ clean_batch rows th,
      (∃ p, r.processOrderId = some p) ∧ (∃ e, r.endTime = some e) ∧
      r.type = "干清" ∧ r.location ∈ allowed_locations ∧
      (∃ v, r.timeElapsed = some v ∧ v ≤ th) ∧
      (rows.filter (fun a => decide (a.processOrderId = r.processOrderId))).head? =
        some r := by
  have hsub : clean_batch rows th <+
      dedupFirst (fun r : BatchRow => r.processOrderId)
        (rows.filter (fun r => r.processOrderId.isSome)) := by
    rw [clean_batch]
    exact (List.filter_sublist _).trans ((List.filter_sublist _).trans
      ((List.filter_sublist _).trans (List.filter_sublist _)))
  constructor
  · have hpair :=
      (pairwise_key_dedupFirst (fun r : BatchRow => r.processOrderId)
        (rows.filter (fun r => r.processOrderId.isSome))).sublist hsub
    exact List.pairwise_map.mpr hpair
  · intro r hr
    rw [clean_batch] at hr
    have h6 := List.mem_filter.mp hr
    have h5 := List.mem_filter.mp h6.1
    have h4 := List.mem_filter.mp h5.1
    have h3 := List.mem_filter.mp h4.1
    have hdedup : r ∈ dedupFirst (fun r : BatchRow => r.processOrderId)
        (rows.filter (fun r => r.processOrderId.isSome)) := h3.1
    have h1mem : r ∈ rows.filter (fun r : BatchRow => r.processOrderId.isSome) :=
      (sublist_dedupFirst _ _).subset hdedup
    have hpo : r.processOrderId.isSome = true := (List.mem_filter.mp h1mem).2
    refine ⟨Option.isSome_iff_exists.mp hpo, Option.isSome_iff_exists.mp h3.2,
      of_decide_eq_true h4.2, of_decide_eq_true h5.2, ?_, ?_⟩
    · rcases hte : r.timeElapsed with _ | v
      · rw [hte] at h6
        exact absurd h6.2 (by simp)
      · rw [hte] at h6
        exact ⟨v, rfl, of_decide_eq_true h6.2⟩
    · have hhead := head_filter_dedupFirst hdedup
      have hfe : (rows.filter (fun a => a.processOrderId.isSome)).filter
            (fun a => decide (a.processOrderId = r.processOrderId)) =
          rows.filter (fun a => decide (a.processOrderId = r.processOrderId)) := by
        rw [List.filter_filter]
        apply List.filter_congr
        intro a _
        by_cases hpa : a.processOrderId = r.processOrderId
        · simp [hpa, hpo]
        · simp [hpa]
      rw [← hfe]
      exact hhead

/-- Witness for C9: a single fully-compliant row survives cleaning and
satisfies the invariant (shown here for the type field). -/
theorem clean_batch_invariant_witness :
    (⟨some "P1", some 0, "干清", "CP Line 9", some 100, some 100⟩ : BatchRow) ∈
      clean_batch [⟨some "P1", some 0, "干清", "CP Line 9", some 100, some 100⟩] 10800 ∧
    (⟨some "P1", some 0, "干清", "CP Line 9", some 100, some 100⟩ : BatchRow).type = "干清" :=
  ⟨by decide,
   ((clean_batch_invariant
        [⟨some "P1", some 0, "干清", "CP Line 9", some 100, some 100⟩] 10800).2 _
      (by decide)).2.2.1⟩

/-! ### Claim C8 (confirmed) -/

/-- C8: in the finalized anomaly output no two records share the same
(batch id, timestamp) pair, and the records are sorted ascending by the
1-based point index `序号`. -/
theorem final_anomalies_dedup_sorted (pts : List SPCPoint) (tm u l : ℚ) :
    (finalize (detect pts tm u l)).Pairwise
      (fun a b => ¬(a.processId = b.processId ∧ a.time = b.time)) ∧
    (finalize (detect pts tm u l)).Pairwise (fun a b => a.seq ≤ b.seq) := by
  constructor
  · have hd := pairwise_key_dedupFirst
      (fun r : AnomalyRecord => (r.processId, r.time)) (detect pts tm u l)
    have hperm := perm_sortAscBy (fun r : AnomalyRecord => r.seq)
      (dedupFirst (fun r : AnomalyRecord => (r.processId, r.time)) (detect pts tm u l))
    rw [finalize]
    refine (hperm.pairwise_iff ?_).mpr ?_
    · intro a b h hab
      exact h ⟨hab.1.symm, hab.2.symm⟩
    · refine hd.imp ?_
      intro a b hne hab
      exact hne (by rw [hab.1, hab.2])
  · exact pairwise_sortAscBy _ _
/-! ### Claim C5 (corrected) -/

/-- C5 counterexample: two rows A, B (in that input order) share the end
time 5; a selector that breaks ties stably would return the window
`[A, B]`, but the selector returns `[B, A]` — the descending sort reverses
the ascending permutation, so equal timestamps come out in reversed input
order. -/
theorem select_window_tie_order_counterexample :
    select_window
        [⟨some "A", some 5, "干清", "CP Line 9", some 100, some 100⟩,
         ⟨some "B", some 5, "干清", "CP Line 9", some 200, some 100⟩] 2 =
      [⟨some "B", some 5, "干清", "CP Line 9", some 200, some 100⟩,
       ⟨some "A", some 5, "干清", "CP Line 9", some 100, some 100⟩] ∧
    (⟨some "A", some 5, "干清", "CP Line 9", some 100, some 100⟩ : BatchRow) ≠
      ⟨some "B", some 5, "干清", "CP Line 9", some 200, some 100⟩ := by
  constructor
  · decide
  · decide

/-- C5 amended: the window selector returns the min(n, number of rows)
most-recent records by end time re-ordered ascending by end time, with no
padding and no error when fewer than n rows exist.  The claim's stable
tie-break guarantee is dropped and replaced by nothing: ties on equal
timestamps are not broken stably (the counterexample above shows two
equal-timestamp rows coming back in reversed input order), and since the
source sorts with the unstable default kind, no particular order among
equal timestamps is guaranteed — accordingly no conjunct below constrains
the relative order of records with equal end time, and every conjunct holds
for any comparison sort the program might use. -/
theorem select_window_spec_amended (rows : List BatchRow) (n : ℕ) :
    (select_window rows n).length = min n rows.length ∧
    (select_window rows n).Pairwise (fun a b => rowTime a ≤ rowTime b) ∧
    (∃ rest, List.Perm (select_window rows n ++ rest) rows ∧
      ∀ a ∈ select_window rows n, ∀ b ∈ rest, rowTime b ≤ rowTime a) ∧
    (rows.length ≤ n → List.Perm (select_window rows n) rows) := by
  set L := (sortAscBy rowTime rows).reverse with hL
  have hlenL : L.length = rows.length := by
    rw [hL, List.length_reverse, length_sortAscBy]
  have hwin : select_window rows n = sortAscBy rowTime (L.take n) := rfl
  have hperm_take : List.Perm (select_window rows n) (L.take n) := by
    rw [hwin]
    exact perm_sortAscBy _ _
  have hLrows : List.Perm L rows := by
    rw [hL]
    exact (List.reverse_perm _).trans (perm_sortAscBy _ _)
  have hdesc : L.Pairwise (fun a b => rowTime b ≤ rowTime a) := by
    rw [hL, List.pairwise_reverse]
    exact pairwise_sortAscBy rowTime rows
  refine ⟨?_, ?_, ?_, ?_⟩
  · rw [hwin, length_sortAscBy, List.length_take, hlenL]
  · rw [hwin]
    exact pairwise_sortAscBy _ _
  · refine ⟨L.drop n, ?_, ?_⟩
    · have h1 : List.Perm (select_window rows n ++ L.drop n) (L.take n ++ L.drop n) :=
        hperm_take.append_right _
      rw [List.take_append_drop] at h1
      exact h1.trans hLrows
    · intro a ha b hb
      have ha' : a ∈ L.take n := hperm_take.subset ha
      have hsplit := hdesc
      rw [← List.take_append_drop n L] at hsplit
      exact (List.pairwise_append.mp hsplit).2.2 a ha' b hb
  · intro hle
    have htake : L.take n = L := List.take_of_length_le (by rw [hlenL]; exact hle)
    rw [hwin, htake]
    exact (perm_sortAscBy _ _).trans hLrows

/-- Witness for C5's amended claim: a one-row dataset with window size 3 is
returned whole. -/
theorem select_window_spec_amended_witness :
    ([(⟨some "A", some 1, "干清", "CP Line 9", some 100, some 100⟩ : BatchRow)]).length ≤ 3 ∧
    List.Perm
      (select_window [(⟨some "A", some 1, "干清", "CP Line 9", some 100, some 100⟩ : BatchRow)] 3)
      [(⟨some "A", some 1, "干清", "CP Line 9", some 100, some 100⟩ : BatchRow)] :=
  ⟨by decide, (select_window_spec_amended _ 3).2.2.2 (by decide)⟩
/-! ### Claim C1 (confirmed): lemmas about `addRule` and `detect` -/

theorem recIdx_mkRecord (pts : List SPCPoint) (k i : ℕ) :
    recIdx (mkRecord pts k i) = i := rfl

theorem rule_mkRecord (pts : List SPCPoint) (k i : ℕ) :
    (mkRecord pts k i).rule = k := rfl

theorem any_idx_iff {recs : List AnomalyRecord} {i : ℕ} :
    (recs.any (fun a => decide (a.seq - 1 = i)) = true) ↔ ∃ r ∈ recs, recIdx r = i := by
  rw [List.any_eq_true]
  constructor
  · rintro ⟨r, hr, hd⟩
    exact ⟨r, hr, of_decide_eq_true hd⟩
  · rintro ⟨r, hr, hd⟩
    exact ⟨r, hr, decide_eq_true hd⟩

theorem addRule_nil (pts : List SPCPoint) (k : ℕ) (recs : List AnomalyRecord) :
    addRule pts k [] recs = recs := rfl

theorem addRule_cons (pts : List SPCPoint) (k i0 : ℕ) (is : List ℕ)
    (recs : List AnomalyRecord) :
    addRule pts k (i0 :: is) recs =
      addRule pts k is
        (if recs.any (fun a => decide (a.seq - 1 = i0)) then recs
         else recs ++ [mkRecord pts k i0]) := rfl

theorem addRule_extends (pts : List SPCPoint) (k : ℕ) :
    ∀ (idxs : List ℕ) (recs : List AnomalyRecord), recs <+: addRule pts k idxs recs := by
  intro idxs
  induction idxs with
  | nil =>
    intro recs
    rw [addRule_nil]
  | cons i0 is ih =>
    intro recs
    rw [addRule_cons]
    by_cases hb : recs.any (fun a => decide (a.seq - 1 = i0)) = true
    · rw [if_pos hb]
      exact ih recs
    · rw [if_neg hb]
      exact (List.prefix_append recs [mkRecord pts k i0]).trans (ih _)

theorem addRule_idx_mem (pts : List SPCPoint) (k : ℕ) :
    ∀ (idxs : List ℕ) (recs : List AnomalyRecord) (i : ℕ),
      (∃ r ∈ addRule pts k idxs recs, recIdx r = i) ↔
        (∃ r ∈ recs, recIdx r = i) ∨ i ∈ idxs := by
  intro idxs
  induction idxs with
  | nil =>
    intro recs i
    rw [addRule_nil]
    simp
  | cons i0 is ih =>
    intro recs i
    rw [addRule_cons]
    by_cases hb : recs.any (fun a => decide (a.seq - 1 = i0)) = true
    · rw [if_pos hb, ih]
      have hex := any_idx_iff.mp hb
      constructor
      · rintro (h | h)
        · exact Or.inl h
        · exact Or.inr (List.mem_cons_of_mem _ h)
      · rintro (h | h)
        · exact Or.inl h
        · rcases List.mem_cons.mp h with rfl | h'
          · exact Or.inl hex
          · exact Or.inr h'
    · rw [if_neg hb, ih]
      constructor
      · rintro (⟨r, hr, hri⟩ | h)
        · rcases List.mem_append.mp hr with hr' | hr'
          · exact Or.inl ⟨r, hr', hri⟩
          · rw [List.mem_singleton] at hr'
            subst hr'
            rw [recIdx_mkRecord] at hri
            exact Or.inr (hri ▸ List.mem_cons_self _ _)
        · exact Or.inr (List.mem_cons_of_mem _ h)
      · rintro (⟨r, hr, hri⟩ | h)
        · exact Or.inl ⟨r, List.mem_append.mpr (Or.inl hr), hri⟩
        · rcases List.mem_cons.mp h with rfl | h'
          · exact Or.inl ⟨mkRecord pts k i, List.mem_append.mpr
              (Or.inr (List.mem_singleton.mpr rfl)), recIdx_mkRecord pts k i⟩
          · exact Or.inr h'

theorem addRule_nodup (pts : List SPCPoint) (k : ℕ) :
    ∀ (idxs : List ℕ) (recs : List AnomalyRecord),
      (recs.map recIdx).Nodup → ((addRule pts k idxs recs).map recIdx).Nodup := by
  intro idxs
  induction idxs with
  | nil =>
    intro recs h
    rwa [addRule_nil]
  | cons i0 is ih =>
    intro recs h
    rw [addRule_cons]
    by_cases hb : recs.any (fun a => decide (a.seq - 1 = i0)) = true
    · rw [if_pos hb]
      exact ih recs h
    · rw [if_neg hb]
      apply ih
      have hni : i0 ∉ recs.map recIdx := by
        intro hmem
        obtain ⟨r, hr, hri⟩ := List.mem_map.mp hmem
        exact hb (any_idx_iff.mpr ⟨r, hr, hri⟩)
      rw [List.map_append]
      rw [show List.map recIdx [mkRecord pts k i0] = [i0] by
        rw [List.map_singleton, recIdx_mkRecord]]
      rw [List.nodup_append]
      exact ⟨h, List.nodup_singleton i0, by simpa using hni⟩

theorem addRule_elem (pts : List SPCPoint) (k : ℕ) :
    ∀ (idxs : List ℕ) (recs : List AnomalyRecord) (r : AnomalyRecord),
      r ∈ addRule pts k idxs recs →
        r ∈ recs ∨ ∃ i ∈ idxs, r = mkRecord pts k i ∧ ¬∃ a ∈ recs, recIdx a = i := by
  intro idxs
  induction idxs with
  | nil =>
    intro recs r h
    rw [addRule_nil] at h
    exact Or.inl h
  | cons i0 is ih =>
    intro recs r h
    rw [addRule_cons] at h
    by_cases hb : recs.any (fun a => decide (a.seq - 1 = i0)) = true
    · rw [if_pos hb] at h
      rcases ih recs r h with h' | ⟨i, hi, he, hn⟩
      · exact Or.inl h'
      · exact Or.inr ⟨i, List.mem_cons_of_mem _ hi, he, hn⟩
    · rw [if_neg hb] at h
      rcases ih _ r h with h' | ⟨i, hi, he, hn⟩
      · rcases List.mem_append.mp h' with h'' | h''
        · exact Or.inl h''
        · rw [List.mem_singleton] at h''
          refine Or.inr ⟨i0, List.mem_cons_self _ _, h'', ?_⟩
          intro hex
          exact hb (any_idx_iff.mpr hex)
      · refine Or.inr ⟨i, List.mem_cons_of_mem _ hi, he, ?_⟩
        intro hex
        obtain ⟨a, ha, hai⟩ := hex
        exact hn ⟨a, List.mem_append.mpr (Or.inl ha), hai⟩

theorem rule1_map_recIdx (pts : List SPCPoint) (u l : ℚ) :
    ((rule1_indices (values pts) u l).map (mkRecord pts 1)).map recIdx =
      rule1_indices (values pts) u l := by
  rw [List.map_map]
  have hid : (recIdx ∘ mkRecord pts 1) = id := funext fun i => recIdx_mkRecord pts 1 i
  rw [hid, List.map_id]

theorem rule1_recs_idx_mem (pts : List SPCPoint) (u l : ℚ) (i : ℕ) :
    (∃ r ∈ (rule1_indices (values pts) u l).map (mkRecord pts 1), recIdx r = i) ↔
      i ∈ rule1_indices (values pts) u l := by
  constructor
  · rintro ⟨r, hr, hri⟩
    obtain ⟨j, hj, rfl⟩ := List.mem_map.mp hr
    rw [recIdx_mkRecord] at hri
    exact hri ▸ hj
  · intro hi
    exact ⟨mkRecord pts 1 i, List.mem_map.mpr ⟨i, hi, rfl⟩, recIdx_mkRecord pts 1 i⟩
/-- C1: the four anomaly rules are processed in the fixed order 1→2→3→4 with
rules 2–4 skipping any point index that already carries a record, so in the
pre-deduplication record list every flagged index appears exactly once
(`Nodup` of the 0-based indices), the flagged indices are exactly the union
of the four rules' index sets, and each record carries the label of the
first rule, in priority order, that catches its index. -/
theorem detect_first_rule_attribution (pts : List SPCPoint) (tm u l : ℚ) :
    ((detect pts tm u l).map recIdx).Nodup ∧
    (∀ i : ℕ,
      (∃ r ∈ detect pts tm u l, recIdx r = i) ↔
        (i ∈ rule1_indices (values pts) u l ∨
         i ∈ check_consecutive_on_one_side (values pts) tm 9 ∨
         i ∈ check_trend (values pts) 6 ∨
         i ∈ check_alternating (values pts) 14)) ∧
    (∀ r ∈ detect pts tm u l, r.rule = specFirstRule (values pts) tm u l (recIdx r)) := by
  have hnodup1 :
      (((rule1_indices (values pts) u l).map (mkRecord pts 1)).map recIdx).Nodup := by
    rw [rule1_map_recIdx]
    exact List.Nodup.filter _ (List.nodup_range _)
  refine ⟨?_, ?_, ?_⟩
  · unfold detect
    exact addRule_nodup pts 4 _ _ (addRule_nodup pts 3 _ _ (addRule_nodup pts 2 _ _ hnodup1))
  · intro i
    unfold detect
    rw [addRule_idx_mem, addRule_idx_mem, addRule_idx_mem, rule1_recs_idx_mem]
    tauto
  · intro r hr
    unfold detect at hr
    rcases addRule_elem pts 4 _ _ r hr with hr3 | ⟨i, hi, rfl, hn⟩
    · rcases addRule_elem pts 3 _ _ r hr3 with hr2 | ⟨i, hi, rfl, hn⟩
      · rcases addRule_elem pts 2 _ _ r hr2 with hr1 | ⟨i, hi, rfl, hn⟩
        · obtain ⟨j, hj, rfl⟩ := List.mem_map.mp hr1
          rw [rule_mkRecord, recIdx_mkRecord, specFirstRule, if_pos hj]
        · rw [rule1_recs_idx_mem] at hn
          rw [rule_mkRecord, recIdx_mkRecord, specFirstRule, if_neg hn, if_pos hi]
      · rw [addRule_idx_mem, rule1_recs_idx_mem] at hn
        push_neg at hn
        rw [rule_mkRecord, recIdx_mkRecord, specFirstRule, if_neg hn.1, if_neg hn.2,
          if_pos hi]
    · rw [addRule_idx_mem, addRule_idx_mem, rule1_recs_idx_mem] at hn
      push_neg at hn
      rw [rule_mkRecord, recIdx_mkRecord, specFirstRule, if_neg hn.1.1, if_neg hn.1.2,
        if_neg hn.2]

/-- Witness for C1: on a one-point window whose value 1000 exceeds
`ucl = 12`, the rule-1 record is in the detector output and carries the
first-catching rule's label. -/
theorem detect_first_rule_attribution_witness :
    mkRecord [⟨1000, 10, "CP Line 9", "A", 5⟩] 1 0 ∈
        detect [⟨1000, 10, "CP Line 9", "A", 5⟩] 10 12 8 ∧
    (mkRecord [⟨1000, 10, "CP Line 9", "A", 5⟩] 1 0).rule =
      specFirstRule (values [⟨1000, 10, "CP Line 9", "A", 5⟩]) 10 12 8
        (recIdx (mkRecord [⟨1000, 10, "CP Line 9", "A", 5⟩] 1 0)) := by
  have h0 : (0 : ℕ) ∈ rule1_indices (values [⟨1000, 10, "CP Line 9", "A", 5⟩]) 12 8 := by
    decide
  have hmem : mkRecord [⟨1000, 10, "CP Line 9", "A", 5⟩] 1 0 ∈
      detect [⟨1000, 10, "CP Line 9", "A", 5⟩] 10 12 8 := by
    have h1 : mkRecord [⟨1000, 10, "CP Line 9", "A", 5⟩] 1 0 ∈
        (rule1_indices (values [⟨1000, 10, "CP Line 9", "A", 5⟩]) 12 8).map
          (mkRecord [⟨1000, 10, "CP Line 9", "A", 5⟩] 1) :=
      List.mem_map.mpr ⟨0, h0, rfl⟩
    unfold detect
    exact ((addRule_extends _ 2 _ _).trans ((addRule_extends _ 3 _ _).trans
      (addRule_extends _ 4 _ _))).subset h1
  exact ⟨hmem,
    (detect_first_rule_attribution [⟨1000, 10, "CP Line 9", "A", 5⟩] 10 12 8).2.2 _ hmem⟩

end DCO
